import Mathlib

/-!
Shallow embedding of the arthur trading repository (src/src): the order-book
and trade data model (data_center.py), the SOBI and Trend strategies
(strategies.py), and the shadow execution engine (backtest.py).
Prices, volumes and indicator values are modelled as rationals; Python
exceptions are modelled by an explicit error type.
-/

namespace Arthur

/-- Python exceptions that the embedded code can raise. -/
inductive PyExn where
  | indexError
  | valueError
  | keyError
  | assertionError
  deriving DecidableEq, Repr

/-- One level of an order-book side: price and resting volume.
The source arrays also carry a timestamp, unused by every embedded
operation. -/
structure Entry where
  price : ℚ
  volume : ℚ
  deriving DecidableEq, Repr

/-- OrderBook from data_center.py: raw bid and ask arrays, bids sorted
descending and asks ascending by the upstream feed. -/
structure OrderBook where
  bids : List Entry
  asks : List Entry
  deriving DecidableEq, Repr

/-- best_bid: the source reads bids[0]; on an empty side the array
access raises IndexError. -/
def OrderBook.best_bid (ob : OrderBook) : Except PyExn ℚ :=
  match ob.bids with
  | [] => Except.error PyExn.indexError
  | e :: _ => Except.ok e.price

/-- best_ask: the source reads asks[0]; on an empty side the array
access raises IndexError. -/
def OrderBook.best_ask (ob : OrderBook) : Except PyExn ℚ :=
  match ob.asks with
  | [] => Except.error PyExn.indexError
  | e :: _ => Except.ok e.price

/-- midprice: np.mean of best ask and best bid; an exception from either
accessor propagates (best_bid is evaluated first in the source). -/
def OrderBook.midprice (ob : OrderBook) : Except PyExn ℚ :=
  match ob.best_bid with
  | Except.error e => Except.error e
  | Except.ok bb =>
    match ob.best_ask with
    | Except.error e => Except.error e
    | Except.ok ba => Except.ok ((ba + bb) / 2)

/-- Running sums of a list starting from a given accumulator, one output
per element: the embedding of np.cumsum. -/
def cumsumFrom (acc : ℚ) : List ℚ → List ℚ
  | [] => []
  | x :: xs => (acc + x) :: cumsumFrom (acc + x) xs

/-- np.cumsum of a list of rationals. -/
def cumsum (xs : List ℚ) : List ℚ := cumsumFrom 0 xs

/-- Boolean-mask selection on entries: the embedding of numpy fancy
indexing arr[idx] with a boolean array idx of the same length. -/
def selectMask : List Entry → List Bool → List Entry
  | [], _ => []
  | _ :: _, [] => []
  | e :: es, b :: bs => if b then e :: selectMask es bs else selectMask es bs

/-- Volume-weighted mean price of a list of entries:
sum of price times volume divided by sum of volume. -/
def vwMean (inc : List Entry) : ℚ :=
  ((inc.map fun e => e.price * e.volume).sum) / ((inc.map Entry.volume).sum)

/-- obwa from data_center.py. Returns ok none when the source returns
None (rejected parameters), ok (some p) when it returns a price, and an
error when the source raises: setting idx[0] on an empty mask array
raises IndexError. -/
def OrderBook.obwa (ob : OrderBook) (side : String) (depth : ℚ) :
    Except PyExn (Option ℚ) :=
  if ¬(side = "bid" ∨ side = "ask") ∨ depth < 0 then
    Except.ok none
  else
    let arr := if side = "bid" then ob.bids else ob.asks
    let total_volume := (arr.map Entry.volume).sum
    let obwa_volume := total_volume * depth / 100
    let idx := (cumsum (arr.map Entry.volume)).map fun c => decide (c ≤ obwa_volume)
    if idx.any id then
      Except.ok (some (vwMean (selectMask arr idx)))
    else if arr.isEmpty then
      Except.error PyExn.indexError
    else
      Except.ok (some (vwMean (selectMask arr (idx.set 0 true))))

/-- A trade bar of the OHLC history; only the fields the embedded
operations read are kept (timestamp and close). -/
structure Bar where
  timestamp : Int
  close : ℚ
  deriving DecidableEq, Repr

/-- PublicTrades from data_center.py: the raw OHLC array. -/
structure PublicTrades where
  ohlc : List Bar
  deriving DecidableEq, Repr

/-- Fold computing the bar selected by np.argmax over timestamps: the
first bar with maximal timestamp. -/
def argmaxBar (best : Bar) : List Bar → Bar
  | [] => best
  | b :: bs => argmaxBar (if best.timestamp < b.timestamp then b else best) bs

/-- last_price: close of the bar with maximal timestamp; np.argmax on an
empty array raises ValueError. -/
def PublicTrades.last_price (pt : PublicTrades) : Except PyExn ℚ :=
  match pt.ohlc with
  | [] => Except.error PyExn.valueError
  | b :: bs => Except.ok (argmaxBar b bs).close

/-- Order from backtest.py: the constructor stores np.abs of the signed
volume, so the stored volume is the natAbs of the request. -/
structure Order where
  order_id : Int
  side : String
  trade_price : ℚ
  volume : Int
  deriving DecidableEq, Repr

/-- Order construction as in the source: volume is stored as its
absolute value. -/
def Order.make (order_id : Int) (side : String) (trade_price : ℚ)
    (volume : Int) : Order :=
  { order_id := order_id, side := side, trade_price := trade_price,
    volume := (volume.natAbs : Int) }

/-- get_cashflow: trade_price times volume, positive for a sell and
negative otherwise. -/
def Order.get_cashflow (o : Order) : ℚ :=
  o.trade_price * (o.volume : ℚ) * (if o.side = "sell" then 1 else -1)

/-- The market_state dict handed to the backtester: server time and the
order book (the public-trades entry is never read by backtest.py). -/
structure MarketState where
  time : Int
  order_book : OrderBook
  deriving DecidableEq, Repr

/-- Backtest state: position, the three newest-first ledger lists, and
the stored market snapshot. market_state = none models the initial
empty dict, whose key accesses raise KeyError. -/
structure Backtest where
  current_position : Int
  cashflows : List ℚ
  turnover : List Int
  all_orders : List Order
  market_state : Option MarketState
  deriving DecidableEq, Repr

/-- Initial backtester: flat position, empty ledgers, no market data. -/
def Backtest.init : Backtest :=
  { current_position := 0, cashflows := [], turnover := [],
    all_orders := [], market_state := none }

/-- update_market_state: plain assignment of the snapshot. -/
def Backtest.update_market_state (b : Backtest) (ms : MarketState) :
    Backtest :=
  { b with market_state := some ms }

/-- execute_order from backtest.py (the source names it with a leading
underscore). The side and price are read from the market before any
state is written, so a raise leaves the state untouched; an error
carries the state as it stood when the exception was raised. -/
def Backtest.execute_order (b : Backtest) (volume : Int) :
    Except (PyExn × Backtest) Backtest :=
  if volume = 0 then
    Except.error (PyExn.assertionError, b)
  else
    match b.market_state with
    | none => Except.error (PyExn.keyError, b)
    | some ms =>
      if 0 < volume then
        match ms.order_book.best_ask with
        | Except.error e => Except.error (e, b)
        | Except.ok trade_price =>
          let order := Order.make ms.time "buy" trade_price volume
          Except.ok { b with
            cashflows := order.get_cashflow :: b.cashflows,
            turnover := (volume.natAbs : Int) :: b.turnover,
            all_orders := order :: b.all_orders }
      else
        match ms.order_book.best_bid with
        | Except.error e => Except.error (e, b)
        | Except.ok trade_price =>
          let order := Order.make ms.time "sell" trade_price volume
          Except.ok { b with
            cashflows := order.get_cashflow :: b.cashflows,
            turnover := (volume.natAbs : Int) :: b.turnover,
            all_orders := order :: b.all_orders }

/-- rebalance_position: trade the difference to the desired position,
then record the new position; a zero difference does nothing. -/
def Backtest.rebalance_position (b : Backtest) (desired_position : Int) :
    Except (PyExn × Backtest) Backtest :=
  let volume_to_trade := desired_position - b.current_position
  if volume_to_trade ≠ 0 then
    match b.execute_order volume_to_trade with
    | Except.error e => Except.error e
    | Except.ok b1 => Except.ok { b1 with current_position := desired_position }
  else
    Except.ok b

/-- current_position_value: mark a long at the best bid, a short at the
best ask, a flat position at zero. -/
def Backtest.current_position_value (b : Backtest) : Except PyExn ℚ :=
  if 0 < b.current_position then
    match b.market_state with
    | none => Except.error PyExn.keyError
    | some ms =>
      match ms.order_book.best_bid with
      | Except.error e => Except.error e
      | Except.ok bb => Except.ok ((b.current_position : ℚ) * bb)
  else if b.current_position < 0 then
    match b.market_state with
    | none => Except.error PyExn.keyError
    | some ms =>
      match ms.order_book.best_ask with
      | Except.error e => Except.error e
      | Except.ok ba => Except.ok ((b.current_position : ℚ) * ba)
  else
    Except.ok 0

/-- get_current_profit: realized cashflow sum plus the current position
value. -/
def Backtest.get_current_profit (b : Backtest) : Except PyExn ℚ :=
  match b.current_position_value with
  | Except.error e => Except.error e
  | Except.ok v => Except.ok (b.cashflows.sum + v)

/-- State of a SobiStrategy instance: configuration, the rolling window
of (imb_bid, imb_ask) pairs newest first, the indicator dictionary
entries (none before the first update, as in the source), the signal
dictionary entries current and rolling, and the trade signal inherited
from the Strategy base (initialised to 0). -/
structure SobiState where
  window_size : Nat
  theta : ℚ
  depth : ℚ
  position_size : Int
  last_imbalances : List (ℚ × ℚ)
  imb_bid : Option ℚ
  imb_ask : Option ℚ
  rolling_imb_bid : Option ℚ
  rolling_imb_ask : Option ℚ
  sig_current : Int
  sig_rolling : Int
  trade_signal : Int
  deriving DecidableEq, Repr

/-- Constructor state of SobiStrategy. -/
def sobiInit (window_size : Nat) (theta : ℚ) (depth : ℚ)
    (position_size : Int) : SobiState :=
  { window_size := window_size, theta := theta, depth := depth,
    position_size := position_size, last_imbalances := [],
    imb_bid := none, imb_ask := none,
    rolling_imb_bid := none, rolling_imb_ask := none,
    sig_current := 0, sig_rolling := 0, trade_signal := 0 }

/-- Elementwise mean of a list of pairs: np.mean with axis zero. -/
def pairMean (w : List (ℚ × ℚ)) : ℚ × ℚ :=
  ((w.map Prod.fst).sum / (w.length : ℚ), (w.map Prod.snd).sum / (w.length : ℚ))

/-- calc_imbalances: bid imbalance is last price minus the
volume-weighted bid, ask imbalance is the volume-weighted ask minus the
last price. -/
def calc_imbalances (vw_bid vw_ask lastprice : ℚ) : ℚ × ℚ :=
  (lastprice - vw_bid, vw_ask - lastprice)

/-- calc_signal of the SOBI strategy: buy when the ask imbalance
exceeds the bid imbalance by more than theta, sell in the mirrored
case, otherwise hold. -/
def sobiCalcSignal (theta imb_bid imb_ask : ℚ) : Int :=
  if theta < imb_ask - imb_bid then 1
  else if theta < imb_bid - imb_ask then -1
  else 0

/-- The rolling-window update of update_indicators: push the new pair
at the front and pop the oldest element when the length exceeds the
window size. -/
def sobiNewWindow (s : SobiState) (imb : ℚ × ℚ) : List (ℚ × ℚ) :=
  let w0 := imb :: s.last_imbalances
  if s.window_size < w0.length then w0.dropLast else w0

/-- One tick of the SobiStrategy under update_market_state, driven by
the (imb_bid, imb_ask) pair that update_indicators computes for the
tick: first update_indicators (window push and eviction, indicator
dictionary refresh), then update_signals, which writes the signal
dictionary and the trade signal only when the window is at full
capacity. -/
def sobiStep (s : SobiState) (imb : ℚ × ℚ) : SobiState :=
  let w := sobiNewWindow s imb
  let rolling := pairMean w
  let s1 := { s with last_imbalances := w,
                     imb_bid := some imb.1, imb_ask := some imb.2,
                     rolling_imb_bid := some rolling.1,
                     rolling_imb_ask := some rolling.2 }
  if w.length = s.window_size then
    { s1 with sig_current := sobiCalcSignal s.theta imb.1 imb.2,
              sig_rolling := sobiCalcSignal s.theta rolling.1 rolling.2,
              trade_signal := sobiCalcSignal s.theta rolling.1 rolling.2 }
  else
    s1

/-- A sequence of SobiStrategy ticks. -/
def sobiRun (s : SobiState) (pairs : List (ℚ × ℚ)) : SobiState :=
  pairs.foldl sobiStep s

/-- desired_position of the Strategy base class: trade signal times the
position size. -/
def SobiState.desired_position (s : SobiState) : Int :=
  s.trade_signal * s.position_size

/-- calc_signal of the TrendStrategy, arguments in source order
(index, negative component, positive component). The branch where the
index exceeds the threshold and the two components are equal falls off
the end of the Python function and returns None. -/
def trendCalcSignal (adx_threshold adx_idx adx_neg adx_pos : ℚ) :
    Option Int :=
  if adx_threshold < adx_idx then
    if adx_neg < adx_pos then some 1
    else if adx_pos < adx_neg then some (-1)
    else none
  else
    some 0

/-- Modelled from the spec wording of volume_weighted_price: walk the
entries in order accumulating volume and include each entry while the
running total through it stays at or below the target. -/
def specIncluded (target : ℚ) (acc : ℚ) : List Entry → List Entry
  | [] => []
  | e :: es =>
    if acc + e.volume ≤ target then e :: specIncluded target (acc + e.volume) es
    else []

/-- Modelled from the spec wording of volume_weighted_price: the
volume-weighted mean over the included entries, with the first entry
force-included when nothing qualifies. -/
def obwaSpecPrice (arr : List Entry) (depth : ℚ) : ℚ :=
  let total := (arr.map Entry.volume).sum
  let target := total * depth / 100
  let inc := specIncluded target 0 arr
  vwMean (if inc.isEmpty then arr.take 1 else inc)

/-- The invariant the SOBI run maintains: the configuration is
unchanged, the window never exceeds its capacity, the externally
visible signals stay at zero below capacity, and at capacity the trade
signal is the SOBI rule applied to the elementwise window mean. -/
def SobiInv (w : Nat) (theta : ℚ) (ps : Int) (s : SobiState) : Prop :=
  s.window_size = w ∧ s.theta = theta ∧ s.position_size = ps ∧
  s.last_imbalances.length ≤ w ∧
  (s.last_imbalances.length < w →
    s.trade_signal = 0 ∧ s.sig_current = 0) ∧
  (s.last_imbalances.length = w →
    s.trade_signal =
      sobiCalcSignal theta (pairMean s.last_imbalances).1
        (pairMean s.last_imbalances).2)

/-- Ten-level bid side of the concrete scenario book: unit volumes,
prices 19 down to 10. -/
def tenBids : List Entry :=
  [⟨19, 1⟩, ⟨18, 1⟩, ⟨17, 1⟩, ⟨16, 1⟩, ⟨15, 1⟩,
   ⟨14, 1⟩, ⟨13, 1⟩, ⟨12, 1⟩, ⟨11, 1⟩, ⟨10, 1⟩]

/-- Ten-level ask side of the concrete scenario book: unit volumes,
prices 21 up to 30. -/
def tenAsks : List Entry :=
  [⟨21, 1⟩, ⟨22, 1⟩, ⟨23, 1⟩, ⟨24, 1⟩, ⟨25, 1⟩,
   ⟨26, 1⟩, ⟨27, 1⟩, ⟨28, 1⟩, ⟨29, 1⟩, ⟨30, 1⟩]

/-- The concrete ten-level scenario book. -/
def tenBook : OrderBook := ⟨tenBids, tenAsks⟩

/-- A book with both sides empty. -/
def emptyBook : OrderBook := ⟨[], []⟩

/-- An empty trade history. -/
def emptyTrades : PublicTrades := ⟨[]⟩

/-- A market snapshot over the scenario book. -/
def ms0 : MarketState := ⟨0, tenBook⟩

/-- The backtester after supplying ms0 and rebalancing from flat to a
position of one unit: one buy of one unit at the best ask of 21. -/
def btC2 : Backtest :=
  { current_position := 1, cashflows := [-21], turnover := [1],
    all_orders := [Order.make 0 "buy" 21 1], market_state := some ms0 }

/-- The expected backtester state of the C1 witness scenario, written
with the order object explicit. -/
def btC1res : Backtest :=
  { current_position := 1,
    cashflows := [(Order.make 0 "buy" 21 1).get_cashflow],
    turnover := [1],
    all_orders := [Order.make 0 "buy" 21 1],
    market_state := some ms0 }

/-- The side array obwa selects before processing. -/
def sideEntries (ob : OrderBook) (side : String) : List Entry :=
  if side = "bid" then ob.bids else ob.asks

theorem cumsumFrom_mem_ge (xs : List ℚ) :
    ∀ (a : ℚ), (∀ x ∈ xs, 0 ≤ x) → ∀ c ∈ cumsumFrom a xs, a ≤ c := by
  induction xs with
  | nil => intro a _ c hc; simp [cumsumFrom] at hc
  | cons x xs ih =>
    intro a hx c hc
    have hx0 : 0 ≤ x := hx x (by simp)
    simp only [cumsumFrom, List.mem_cons] at hc
    rcases hc with h | h
    · subst h; linarith
    · have := ih (a + x) (fun y hy => hx y (by simp [hy])) c h
      linarith

theorem selectMask_all_false :
    ∀ (arr : List Entry) (mask : List Bool),
      (∀ b ∈ mask, b = false) → selectMask arr mask = [] := by
  intro arr
  induction arr with
  | nil => intro mask _; simp [selectMask]
  | cons e es ih =>
    intro mask hm
    cases mask with
    | nil => simp [selectMask]
    | cons b bs =>
      have hb : b = false := hm b (by simp)
      subst hb
      simpa [selectMask] using ih bs (fun y hy => hm y (by simp [hy]))

theorem selectMask_cumsum_eq_spec (target : ℚ) :
    ∀ (arr : List Entry) (acc : ℚ), (∀ x ∈ arr, 0 ≤ x.volume) →
      selectMask arr
          ((cumsumFrom acc (arr.map Entry.volume)).map fun c => decide (c ≤ target))
        = specIncluded target acc arr := by
  intro arr
  induction arr with
  | nil => intro acc _; simp [selectMask, specIncluded, cumsumFrom]
  | cons e es ih =>
    intro acc hv
    simp only [List.map_cons, cumsumFrom]
    by_cases h : acc + e.volume ≤ target
    · rw [specIncluded, if_pos h]
      simp only [decide_eq_true h, selectMask, if_true]
      exact congrArg (e :: ·) (ih (acc + e.volume) fun y hy => hv y (by simp [hy]))
    · rw [specIncluded, if_neg h]
      have hd : decide (acc + e.volume ≤ target) = false := decide_eq_false h
      rw [hd]
      simp only [selectMask, if_false]
      refine selectMask_all_false es _ ?_
      intro b hb
      obtain ⟨c, hc, rfl⟩ := List.mem_map.mp hb
      have hge := cumsumFrom_mem_ge (es.map Entry.volume) (acc + e.volume)
        (by intro y hy
            obtain ⟨x, hx, rfl⟩ := List.mem_map.mp hy
            exact hv x (by simp [hx]) ) c hc
      exact decide_eq_false (by linarith)

theorem obwa_mask_head_true (e : Entry) (es : List Entry) (t : ℚ)
    (hvol : ∀ x ∈ e :: es, 0 ≤ x.volume) (h : 0 + e.volume ≤ t) :
    (((cumsum ((e :: es).map Entry.volume)).map fun c => decide (c ≤ t)).any id) = true
    ∧ selectMask (e :: es)
        ((cumsum ((e :: es).map Entry.volume)).map fun c => decide (c ≤ t))
      = specIncluded t 0 (e :: es) := by
  constructor
  · simp only [cumsum, List.map_cons, cumsumFrom, List.any_cons, id,
      decide_eq_true h, Bool.true_or]
  · simpa [cumsum] using selectMask_cumsum_eq_spec t (e :: es) 0 hvol

theorem obwa_mask_head_false (e : Entry) (es : List Entry) (t : ℚ)
    (hvol : ∀ x ∈ e :: es, 0 ≤ x.volume) (h : ¬(0 + e.volume ≤ t)) :
    (((cumsum ((e :: es).map Entry.volume)).map fun c => decide (c ≤ t)).any id) = false
    ∧ selectMask (e :: es)
        (((cumsum ((e :: es).map Entry.volume)).map fun c => decide (c ≤ t)).set 0 true)
      = (e :: es).take 1
    ∧ specIncluded t 0 (e :: es) = [] := by
  have hm : (cumsum ((e :: es).map Entry.volume)).map (fun c => decide (c ≤ t))
      = decide (0 + e.volume ≤ t)
        :: ((cumsumFrom (0 + e.volume) (es.map Entry.volume)).map fun c => decide (c ≤ t)) := rfl
  have hrest : ∀ b ∈ (cumsumFrom (0 + e.volume) (es.map Entry.volume)).map
      (fun c => decide (c ≤ t)), b = false := by
    intro b hb
    obtain ⟨c, hc, rfl⟩ := List.mem_map.mp hb
    have hge := cumsumFrom_mem_ge (es.map Entry.volume) (0 + e.volume)
      (by intro y hy
          obtain ⟨x, hx, rfl⟩ := List.mem_map.mp hy
          exact hvol x (by simp [hx])) c hc
    exact decide_eq_false (by linarith)
  refine ⟨?_, ?_, ?_⟩
  · rw [hm]
    simp only [List.any_eq_false]
    intro b hb
    rcases List.mem_cons.mp hb with h1 | h1
    · rw [h1]
      simp only [id, decide_eq_true_eq]
      exact h
    · simp [hrest b h1]
  · rw [hm, List.set_cons_zero]
    have hsel : selectMask es ((cumsumFrom (0 + e.volume) (es.map Entry.volume)).map
        (fun c => decide (c ≤ t))) = [] := selectMask_all_false es _ hrest
    simp only [selectMask, if_true, hsel]
    rfl
  · show (if 0 + e.volume ≤ t then e :: specIncluded t (0 + e.volume) es else []) = []
    rw [if_neg h]

theorem obwa_eq_spec (ob : OrderBook) (side : String) (depth : ℚ)
    (hside : side = "bid" ∨ side = "ask")
    (hne : sideEntries ob side ≠ [])
    (hvol : ∀ x ∈ sideEntries ob side, 0 ≤ x.volume)
    (hd0 : 0 ≤ depth) :
    ob.obwa side depth = Except.ok (some (obwaSpecPrice (sideEntries ob side) depth)) := by
  have hcond : ¬(¬(side = "bid" ∨ side = "ask") ∨ depth < 0) := by
    push_neg
    exact ⟨hside, hd0⟩
  obtain ⟨e, es, harr⟩ := List.exists_cons_of_ne_nil hne
  have harr2 : (if side = "bid" then ob.bids else ob.asks) = e :: es := by
    rw [← sideEntries, harr]
  rw [OrderBook.obwa.eq_def, if_neg hcond]
  simp only [harr, harr2]
  have hspec : obwaSpecPrice (e :: es) depth
      = vwMean
          (if (specIncluded (((e :: es).map Entry.volume).sum * depth / 100) 0 (e :: es)).isEmpty
           then (e :: es).take 1
           else specIncluded (((e :: es).map Entry.volume).sum * depth / 100) 0 (e :: es)) := rfl
  rw [hspec]
  rw [harr] at hvol
  by_cases h : 0 + e.volume ≤ ((e :: es).map Entry.volume).sum * depth / 100
  · obtain ⟨hany, hsel⟩ := obwa_mask_head_true e es _ hvol h
    have hcons : specIncluded (((e :: es).map Entry.volume).sum * depth / 100) 0 (e :: es)
        = e :: specIncluded (((e :: es).map Entry.volume).sum * depth / 100) (0 + e.volume) es := by
      show (if 0 + e.volume ≤ ((e :: es).map Entry.volume).sum * depth / 100
            then e :: specIncluded (((e :: es).map Entry.volume).sum * depth / 100) (0 + e.volume) es
            else []) = _
      rw [if_pos h]
    rw [hany, if_pos rfl, hsel, hcons]
    simp
  · obtain ⟨hany, hset, hempty⟩ := obwa_mask_head_false e es _ hvol h
    rw [hany]
    simp only [Bool.false_eq_true, if_false, List.isEmpty_cons, hset, hempty]
    simp

/-- C3: for a non-empty side with nonnegative volumes and positive
total volume, and depth in the unit range, obwa returns the
spec-described price: include each entry while the cumulative volume
through it stays at or below total times depth over one hundred, force
the first entry when nothing qualifies, and take the volume-weighted
mean of the included entries. On the ten-level unit-volume bid side
priced 19 down to 10 this yields 19 at depth 1, 17 at depth 50 and
14.5 at depth 100. -/
theorem obwa_matches_spec (ob : OrderBook) (side : String) (depth : ℚ)
    (hside : side = "bid" ∨ side = "ask")
    (hne : sideEntries ob side ≠ [])
    (hvol : ∀ x ∈ sideEntries ob side, 0 ≤ x.volume)
    (htot : 0 < ((sideEntries ob side).map Entry.volume).sum)
    (hd0 : 0 ≤ depth) (hd1 : depth ≤ 100) :
    ob.obwa side depth = Except.ok (some (obwaSpecPrice (sideEntries ob side) depth))
    ∧ OrderBook.obwa tenBook "bid" 1 = Except.ok (some 19)
    ∧ OrderBook.obwa tenBook "bid" 50 = Except.ok (some 17)
    ∧ OrderBook.obwa tenBook "bid" 100 = Except.ok (some (29 / 2)) := by
  refine ⟨obwa_eq_spec ob side depth hside hne hvol hd0, ?_, ?_, ?_⟩
  · norm_num [OrderBook.obwa, tenBook, tenBids, tenAsks, cumsum, cumsumFrom,
      selectMask, vwMean]
  · norm_num [OrderBook.obwa, tenBook, tenBids, tenAsks, cumsum, cumsumFrom,
      selectMask, vwMean]
  · norm_num [OrderBook.obwa, tenBook, tenBids, tenAsks, cumsum, cumsumFrom,
      selectMask, vwMean]

/-- C3 witness: the general part of obwa_matches_spec applied to the
ten-level bid side at depth 50. -/
theorem obwa_matches_spec_witness :
    OrderBook.obwa tenBook "bid" 50
      = Except.ok (some (obwaSpecPrice (sideEntries tenBook "bid") 50)) :=
  (obwa_matches_spec tenBook "bid" 50 (Or.inl rfl)
    (by simp [sideEntries, tenBook, tenBids])
    (by intro x hx
        simp only [sideEntries, if_pos rfl, tenBook, tenBids] at hx
        fin_cases hx <;> norm_num)
    (by norm_num [sideEntries, tenBook, tenBids])
    (by norm_num) (by norm_num)).1

/-- C6 counterexample: a depth of 200 lies outside the range the claim
says is rejected, yet obwa computes and returns a price instead of the
unavailable marker. -/
theorem obwa_param_check_counterexample :
    OrderBook.obwa tenBook "bid" 200 = Except.ok (some (29 / 2))
    ∧ OrderBook.obwa tenBook "bid" 200 ≠ Except.ok none := by
  have h : OrderBook.obwa tenBook "bid" 200 = Except.ok (some (29 / 2)) := by
    norm_num [OrderBook.obwa, tenBook, tenBids, tenAsks, cumsum, cumsumFrom,
      selectMask, vwMean]
  refine ⟨h, ?_⟩
  rw [h]
  simp

/-- C6 amended: obwa rejects a call and returns the unavailable marker
exactly when the side is unrecognized or the depth is negative; a depth
above 100 is not rejected. -/
theorem obwa_param_check_amended (ob : OrderBook) (side : String) (depth : ℚ)
    (h : ¬(side = "bid" ∨ side = "ask") ∨ depth < 0) :
    ob.obwa side depth = Except.ok none := by
  rw [OrderBook.obwa.eq_def, if_pos h]

/-- C6 amended witness: an unrecognized side is rejected with the
unavailable marker. -/
theorem obwa_param_check_amended_witness :
    OrderBook.obwa tenBook "mid" 5 = Except.ok none :=
  obwa_param_check_amended tenBook "mid" 5 (Or.inl (by simp))

/-- C7 counterexample: on an empty book side and an empty trade history
the accessors raise exceptions (IndexError from the array access,
ValueError from np.argmax) instead of returning an unavailable value. -/
theorem empty_data_counterexample :
    OrderBook.best_bid emptyBook = Except.error PyExn.indexError
    ∧ OrderBook.best_ask emptyBook = Except.error PyExn.indexError
    ∧ OrderBook.midprice emptyBook = Except.error PyExn.indexError
    ∧ PublicTrades.last_price emptyTrades = Except.error PyExn.valueError :=
  ⟨rfl, rfl, rfl, rfl⟩

/-- C7 amended: with an empty bid side best_bid raises IndexError, with
an empty ask side best_ask raises IndexError, midprice propagates the
IndexError when either side is empty, and last_price raises ValueError
on an empty trade history; none of them returns a value in these
cases. -/
theorem empty_data_raises (ob : OrderBook) (pt : PublicTrades) :
    (ob.bids = [] → ob.best_bid = Except.error PyExn.indexError)
    ∧ (ob.asks = [] → ob.best_ask = Except.error PyExn.indexError)
    ∧ (ob.bids = [] ∨ ob.asks = [] → ob.midprice = Except.error PyExn.indexError)
    ∧ (pt.ohlc = [] → pt.last_price = Except.error PyExn.valueError) := by
  refine ⟨?_, ?_, ?_, ?_⟩
  · intro h
    rw [OrderBook.best_bid.eq_def, h]
  · intro h
    rw [OrderBook.best_ask.eq_def, h]
  · intro h
    rcases h with h | h
    · rw [OrderBook.midprice.eq_def, OrderBook.best_bid.eq_def, h]
    · cases hb : ob.bids with
      | nil => rw [OrderBook.midprice.eq_def, OrderBook.best_bid.eq_def, hb]
      | cons x xs =>
        rw [OrderBook.midprice.eq_def, OrderBook.best_bid.eq_def, hb,
          OrderBook.best_ask.eq_def, h]
  · intro h
    rw [PublicTrades.last_price.eq_def, h]

/-- C7 amended witness: midprice on the empty book raises. -/
theorem empty_data_raises_witness :
    OrderBook.midprice emptyBook = Except.error PyExn.indexError :=
  (empty_data_raises emptyBook emptyTrades).2.2.1 (Or.inl rfl)

/-- C8: the Trend signal function returns None, not 0, when the
strength index exceeds the threshold and the directional components
tie, falling off the end of the Python function; the other branches
return the documented values. -/
theorem trend_tie_bug :
    trendCalcSignal 25 30 10 10 = none
    ∧ trendCalcSignal 25 30 10 12 = some 1
    ∧ trendCalcSignal 25 30 12 10 = some (-1)
    ∧ trendCalcSignal 25 20 10 10 = some 0 := by
  refine ⟨?_, ?_, ?_, ?_⟩ <;> norm_num [trendCalcSignal]

/-- C1: with a supplied snapshot, rebalancing to the current position is
a no-op, and rebalancing across a nonzero delta prepends exactly one
order of volume equal to the absolute delta, priced at the best ask on
a buy and at the best bid on a sell, together with its cashflow and
that turnover, and records the desired position. -/
theorem rebalance_position_spec (b : Backtest) (ms : MarketState) (d : Int)
    (hms : b.market_state = some ms) :
    (d = b.current_position → b.rebalance_position d = Except.ok b)
    ∧ (∀ e rest, b.current_position < d → ms.order_book.asks = e :: rest →
        b.rebalance_position d = Except.ok
          { b with
            current_position := d,
            cashflows := (Order.make ms.time "buy" e.price (d - b.current_position)).get_cashflow
              :: b.cashflows,
            turnover := (((d - b.current_position).natAbs : Int)) :: b.turnover,
            all_orders := Order.make ms.time "buy" e.price (d - b.current_position)
              :: b.all_orders }
        ∧ (Order.make ms.time "buy" e.price (d - b.current_position)).volume
            = |d - b.current_position|)
    ∧ (∀ e rest, d < b.current_position → ms.order_book.bids = e :: rest →
        b.rebalance_position d = Except.ok
          { b with
            current_position := d,
            cashflows := (Order.make ms.time "sell" e.price (d - b.current_position)).get_cashflow
              :: b.cashflows,
            turnover := (((d - b.current_position).natAbs : Int)) :: b.turnover,
            all_orders := Order.make ms.time "sell" e.price (d - b.current_position)
              :: b.all_orders }
        ∧ (Order.make ms.time "sell" e.price (d - b.current_position)).volume
            = |d - b.current_position|) := by
  refine ⟨?_, ?_, ?_⟩
  · intro h
    subst h
    simp [Backtest.rebalance_position]
  · intro e rest hlt hasks
    have hne : d - b.current_position ≠ 0 := by omega
    constructor
    · have hexec : b.execute_order (d - b.current_position) = Except.ok
          { b with
            cashflows := (Order.make ms.time "buy" e.price (d - b.current_position)).get_cashflow
              :: b.cashflows,
            turnover := (((d - b.current_position).natAbs : Int)) :: b.turnover,
            all_orders := Order.make ms.time "buy" e.price (d - b.current_position)
              :: b.all_orders } := by
        rw [Backtest.execute_order.eq_def, if_neg hne, hms]
        dsimp only
        rw [if_pos (by omega : (0 : ℤ) < d - b.current_position),
          OrderBook.best_ask.eq_def, hasks]
      simp only [Backtest.rebalance_position, if_pos hne]
      rw [hexec]
    · show ((d - b.current_position).natAbs : Int) = |d - b.current_position|
      exact (Int.abs_eq_natAbs _).symm
  · intro e rest hlt hbids
    have hne : d - b.current_position ≠ 0 := by omega
    constructor
    · have hexec : b.execute_order (d - b.current_position) = Except.ok
          { b with
            cashflows := (Order.make ms.time "sell" e.price (d - b.current_position)).get_cashflow
              :: b.cashflows,
            turnover := (((d - b.current_position).natAbs : Int)) :: b.turnover,
            all_orders := Order.make ms.time "sell" e.price (d - b.current_position)
              :: b.all_orders } := by
        rw [Backtest.execute_order.eq_def, if_neg hne, hms]
        dsimp only
        rw [if_neg (by omega : ¬(0 : ℤ) < d - b.current_position),
          OrderBook.best_bid.eq_def, hbids]
      simp only [Backtest.rebalance_position, if_pos hne]
      rw [hexec]
    · show ((d - b.current_position).natAbs : Int) = |d - b.current_position|
      exact (Int.abs_eq_natAbs _).symm

/-- C1 witness: starting flat with the scenario snapshot, rebalancing to
one unit buys one unit at the best ask of 21. -/
theorem rebalance_position_spec_witness :
    Backtest.rebalance_position (Backtest.update_market_state Backtest.init ms0) 1
      = Except.ok btC1res := by
  have h := (rebalance_position_spec
      (Backtest.update_market_state Backtest.init ms0) ms0 1 rfl).2.1
    ⟨21, 1⟩ tenAsks.tail (by decide) rfl
  exact h.1

/-- C2: get_current_profit is the cashflow sum plus the position marked
at the best bid when long, at the best ask when short, and at zero when
flat; order cashflows are negative price times volume for buys and
positive for sells; and the concrete scenario of buying one unit at 21
and marking against a bid of 19 yields a profit of minus 2. -/
theorem get_current_profit_spec (b : Backtest) (ms : MarketState) (bb ba : Entry)
    (bbs bas : List Entry) (hms : b.market_state = some ms)
    (hbids : ms.order_book.bids = bb :: bbs) (hasks : ms.order_book.asks = ba :: bas) :
    b.get_current_profit = Except.ok (b.cashflows.sum +
        (if 0 < b.current_position then (b.current_position : ℚ) * bb.price
         else if b.current_position < 0 then (b.current_position : ℚ) * ba.price
         else 0))
    ∧ (∀ o : Order, (o.side = "buy" → o.get_cashflow = -(o.trade_price * (o.volume : ℚ)))
        ∧ (o.side = "sell" → o.get_cashflow = o.trade_price * (o.volume : ℚ)))
    ∧ Backtest.rebalance_position (Backtest.update_market_state Backtest.init ms0) 1
        = Except.ok btC2
    ∧ Backtest.get_current_profit btC2 = Except.ok (-2) := by
  refine ⟨?_, ?_, ?_, ?_⟩
  · by_cases h1 : 0 < b.current_position
    · rw [Backtest.get_current_profit.eq_def, Backtest.current_position_value.eq_def,
        if_pos h1, hms]
      dsimp only
      rw [OrderBook.best_bid.eq_def, hbids]
      dsimp only
      rw [if_pos h1]
    · by_cases h2 : b.current_position < 0
      · rw [Backtest.get_current_profit.eq_def, Backtest.current_position_value.eq_def,
          if_neg h1, if_pos h2, hms]
        dsimp only
        rw [OrderBook.best_ask.eq_def, hasks]
        dsimp only
        rw [if_neg h1, if_pos h2]
      · rw [Backtest.get_current_profit.eq_def, Backtest.current_position_value.eq_def,
          if_neg h1, if_neg h2, if_neg h1, if_neg h2]
  · intro o
    constructor
    · intro hside
      rw [Order.get_cashflow.eq_def, hside, if_neg (by decide : ¬("buy" : String) = "sell")]
      ring
    · intro hside
      rw [Order.get_cashflow.eq_def, hside, if_pos rfl]
      ring
  · norm_num [Backtest.rebalance_position, Backtest.execute_order,
      Backtest.update_market_state, Backtest.init, ms0, tenBook, tenAsks, tenBids,
      Order.make, Order.get_cashflow, OrderBook.best_ask, btC2]
    decide
  · norm_num [Backtest.get_current_profit, Backtest.current_position_value, btC2,
      ms0, tenBook, tenBids, OrderBook.best_bid]

/-- C2 witness: the profit of the scenario state is minus 2. -/
theorem get_current_profit_spec_witness :
    Backtest.get_current_profit btC2 = Except.ok (-2) :=
  (get_current_profit_spec btC2 ms0 ⟨19, 1⟩ ⟨21, 1⟩ tenBids.tail tenAsks.tail
    rfl rfl rfl).2.2.2

/-- C10: when rebalancing across a nonzero delta fails because no
snapshot was supplied or the required side of the stored book is empty,
the exception is raised before any mutation, so the error carries the
state exactly as it was before the call. -/
theorem rebalance_atomicity (b : Backtest) (d : Int) (hd : d ≠ b.current_position)
    (hfail : b.market_state = none
      ∨ ∃ ms, b.market_state = some ms
          ∧ ((b.current_position < d ∧ ms.order_book.asks = [])
             ∨ (d < b.current_position ∧ ms.order_book.bids = []))) :
    ∃ e, b.rebalance_position d = Except.error (e, b) := by
  have hne : d - b.current_position ≠ 0 := by omega
  rcases hfail with h | ⟨ms, hms, hcase⟩
  · refine ⟨PyExn.keyError, ?_⟩
    simp only [Backtest.rebalance_position, if_pos hne]
    rw [Backtest.execute_order.eq_def, if_neg hne, h]
  · rcases hcase with ⟨hlt, hasks⟩ | ⟨hlt, hbids⟩
    · refine ⟨PyExn.indexError, ?_⟩
      simp only [Backtest.rebalance_position, if_pos hne]
      rw [Backtest.execute_order.eq_def, if_neg hne, hms]
      dsimp only
      rw [if_pos (by omega : (0 : ℤ) < d - b.current_position),
        OrderBook.best_ask.eq_def, hasks]
    · refine ⟨PyExn.indexError, ?_⟩
      simp only [Backtest.rebalance_position, if_pos hne]
      rw [Backtest.execute_order.eq_def, if_neg hne, hms]
      dsimp only
      rw [if_neg (by omega : ¬(0 : ℤ) < d - b.current_position),
        OrderBook.best_bid.eq_def, hbids]

/-- C10 witness: rebalancing with no snapshot supplied errors and hands
back the untouched initial state. -/
theorem rebalance_atomicity_witness :
    ∃ e, Backtest.rebalance_position Backtest.init 1
      = Except.error (e, Backtest.init) :=
  rebalance_atomicity Backtest.init 1 (by decide) (Or.inl rfl)

theorem sobiStep_window_size (s : SobiState) (p : ℚ × ℚ) :
    (sobiStep s p).window_size = s.window_size := by
  by_cases hc : (sobiNewWindow s p).length = s.window_size <;> simp [sobiStep, hc]

theorem sobiStep_theta (s : SobiState) (p : ℚ × ℚ) :
    (sobiStep s p).theta = s.theta := by
  by_cases hc : (sobiNewWindow s p).length = s.window_size <;> simp [sobiStep, hc]

theorem sobiStep_position_size (s : SobiState) (p : ℚ × ℚ) :
    (sobiStep s p).position_size = s.position_size := by
  by_cases hc : (sobiNewWindow s p).length = s.window_size <;> simp [sobiStep, hc]

theorem sobiStep_last (s : SobiState) (p : ℚ × ℚ) :
    (sobiStep s p).last_imbalances = sobiNewWindow s p := by
  by_cases hc : (sobiNewWindow s p).length = s.window_size <;> simp [sobiStep, hc]

theorem sobiStep_trade_signal (s : SobiState) (p : ℚ × ℚ) :
    (sobiStep s p).trade_signal =
      if (sobiNewWindow s p).length = s.window_size then
        sobiCalcSignal s.theta (pairMean (sobiNewWindow s p)).1
          (pairMean (sobiNewWindow s p)).2
      else s.trade_signal := by
  by_cases hc : (sobiNewWindow s p).length = s.window_size <;> simp [sobiStep, hc]

theorem sobiStep_sig_current (s : SobiState) (p : ℚ × ℚ) :
    (sobiStep s p).sig_current =
      if (sobiNewWindow s p).length = s.window_size then
        sobiCalcSignal s.theta p.1 p.2
      else s.sig_current := by
  by_cases hc : (sobiNewWindow s p).length = s.window_size <;> simp [sobiStep, hc]

theorem sobiNewWindow_eq_take (s : SobiState) (p : ℚ × ℚ)
    (h : s.last_imbalances.length ≤ s.window_size) :
    sobiNewWindow s p = (p :: s.last_imbalances).take s.window_size := by
  simp only [sobiNewWindow]
  by_cases hc : s.window_size < (p :: s.last_imbalances).length
  · rw [if_pos hc, List.dropLast_eq_take]
    congr 1
    simp only [List.length_cons] at hc ⊢
    omega
  · rw [if_neg hc]
    refine (List.take_of_length_le ?_).symm
    simp only [List.length_cons] at hc ⊢
    omega

theorem take_append_take {α : Type} (a x : List α) (w : ℕ) :
    (a ++ x.take w).take w = (a ++ x).take w := by
  rw [List.take_append_eq_append_take, List.take_append_eq_append_take, List.take_take]
  congr 1
  exact congrArg (fun m => x.take m) (Nat.min_eq_left (Nat.sub_le w a.length))

theorem sobiRun_window : ∀ (qs : List (ℚ × ℚ)) (s : SobiState),
    s.last_imbalances.length ≤ s.window_size →
    (sobiRun s qs).last_imbalances
      = (qs.reverse ++ s.last_imbalances).take s.window_size := by
  intro qs
  induction qs with
  | nil =>
    intro s h
    simp only [sobiRun, List.foldl_nil, List.reverse_nil, List.nil_append]
    exact (List.take_of_length_le h).symm
  | cons p ps ih =>
    intro s h
    have hstep : sobiRun s (p :: ps) = sobiRun (sobiStep s p) ps := rfl
    have hws := sobiStep_window_size s p
    have hw := sobiStep_last s p
    have htake := sobiNewWindow_eq_take s p h
    have hlen : (sobiStep s p).last_imbalances.length ≤ (sobiStep s p).window_size := by
      rw [hw, htake, hws, List.length_take]
      omega
    rw [hstep, ih (sobiStep s p) hlen, hws, hw, htake,
      List.reverse_cons, List.append_assoc, List.singleton_append]
    exact take_append_take ps.reverse (p :: s.last_imbalances) s.window_size

theorem sobiRun_init_window (w : Nat) (theta d : ℚ) (ps : Int)
    (qs : List (ℚ × ℚ)) :
    (sobiRun (sobiInit w theta d ps) qs).last_imbalances = qs.reverse.take w := by
  have h := sobiRun_window qs (sobiInit w theta d ps) (by simp [sobiInit])
  simpa [sobiInit] using h

theorem sobiStep_inv (w : Nat) (theta : ℚ) (ps : Int) (s : SobiState) (p : ℚ × ℚ)
    (h : SobiInv w theta ps s) : SobiInv w theta ps (sobiStep s p) := by
  obtain ⟨h1, h2, h3, h4, h5, h6⟩ := h
  have hws := sobiStep_window_size s p
  have hth := sobiStep_theta s p
  have hps := sobiStep_position_size s p
  have hwin := sobiStep_last s p
  have htake := sobiNewWindow_eq_take s p (by rw [h1]; exact h4)
  have hlen : (sobiStep s p).last_imbalances.length
      = min s.window_size (s.last_imbalances.length + 1) := by
    rw [hwin, htake, List.length_take, List.length_cons]
  refine ⟨hws.trans h1, hth.trans h2, hps.trans h3, ?_, ?_, ?_⟩
  · rw [hlen, h1]
    omega
  · intro hlt
    have hcond : ¬((sobiNewWindow s p).length = s.window_size) := by
      intro hcontra
      rw [hwin] at hlt
      rw [hcontra, h1] at hlt
      omega
    rw [sobiStep_trade_signal, if_neg hcond, sobiStep_sig_current, if_neg hcond]
    apply h5
    rw [hlen, h1] at hlt
    omega
  · intro heq
    have hcond : (sobiNewWindow s p).length = s.window_size := by
      rw [hwin] at heq
      rw [heq, h1]
    rw [sobiStep_trade_signal, if_pos hcond, h2, ← hwin]

theorem sobiRun_inv (w : Nat) (theta : ℚ) (ps : Int) :
    ∀ (qs : List (ℚ × ℚ)) (s : SobiState),
      SobiInv w theta ps s → SobiInv w theta ps (sobiRun s qs) := by
  intro qs
  induction qs with
  | nil => intro s h; exact h
  | cons p ps2 ih => intro s h; exact ih (sobiStep s p) (sobiStep_inv w theta ps s p h)

theorem sobiInit_inv (w : Nat) (theta d : ℚ) (ps : Int) (hw : 1 ≤ w) :
    SobiInv w theta ps (sobiInit w theta d ps) := by
  refine ⟨rfl, rfl, rfl, by simp [sobiInit], fun _ => ⟨rfl, rfl⟩, ?_⟩
  intro h
  simp [sobiInit] at h
  omega

/-- C4: the externally visible trade signal equals the SOBI rule applied
to the elementwise mean of the window whenever the window is at full
capacity, is zero on every run too short to fill the window, and the
desired position is always the trade signal times the position size. -/
theorem sobi_trade_signal_spec (w : Nat) (theta d : ℚ) (ps : Int) (hw : 1 ≤ w)
    (qs : List (ℚ × ℚ)) :
    ((sobiRun (sobiInit w theta d ps) qs).last_imbalances.length = w →
      (sobiRun (sobiInit w theta d ps) qs).trade_signal
        = sobiCalcSignal theta
            (pairMean (sobiRun (sobiInit w theta d ps) qs).last_imbalances).1
            (pairMean (sobiRun (sobiInit w theta d ps) qs).last_imbalances).2)
    ∧ (qs.length < w → (sobiRun (sobiInit w theta d ps) qs).trade_signal = 0)
    ∧ (sobiRun (sobiInit w theta d ps) qs).desired_position
        = (sobiRun (sobiInit w theta d ps) qs).trade_signal * ps := by
  obtain ⟨h1, h2, h3, h4, h5, h6⟩ :=
    sobiRun_inv w theta ps qs (sobiInit w theta d ps) (sobiInit_inv w theta d ps hw)
  refine ⟨h6, ?_, ?_⟩
  · intro hlen
    refine (h5 ?_).1
    rw [sobiRun_init_window, List.length_take, List.length_reverse]
    omega
  · rw [SobiState.desired_position, h3]

/-- C4 witness: with a window of one, a single update makes the trade
signal the rolling signal of the filled window. -/
theorem sobi_trade_signal_spec_witness :
    (sobiRun (sobiInit 1 0 2 2) [(0, 1)]).trade_signal
      = sobiCalcSignal 0
          (pairMean (sobiRun (sobiInit 1 0 2 2) [(0, 1)]).last_imbalances).1
          (pairMean (sobiRun (sobiInit 1 0 2 2) [(0, 1)]).last_imbalances).2 :=
  (sobi_trade_signal_spec 1 0 2 2 (by norm_num) [(0, 1)]).1
    (by rw [sobiRun_init_window]; rfl)

/-- C5: the rolling window never exceeds its capacity after any run of
updates, and after capacity-plus-one insertions the window holds
exactly the later insertions newest first, so the first inserted pair
is evicted and, when distinct from the others, absent. -/
theorem rolling_window_fifo (w : Nat) (theta d : ℚ) (ps : Int)
    (qs : List (ℚ × ℚ)) (x : ℚ × ℚ) (rest : List (ℚ × ℚ))
    (h1 : rest.length = w) (h2 : x ∉ rest) :
    (sobiRun (sobiInit w theta d ps) qs).last_imbalances.length ≤ w
    ∧ (sobiRun (sobiInit w theta d ps) (x :: rest)).last_imbalances = rest.reverse
    ∧ x ∉ (sobiRun (sobiInit w theta d ps) (x :: rest)).last_imbalances := by
  have hfifo : (sobiRun (sobiInit w theta d ps) (x :: rest)).last_imbalances
      = rest.reverse := by
    rw [sobiRun_init_window, List.reverse_cons]
    have hrl : rest.reverse.length = w := by rw [List.length_reverse, h1]
    rw [← hrl, List.take_left]
  refine ⟨?_, hfifo, ?_⟩
  · rw [sobiRun_init_window, List.length_take]
    omega
  · rw [hfifo]
    simpa using h2

/-- C5 witness: with capacity two, after three insertions the first
pair is gone and the window is the last two pairs newest first. -/
theorem rolling_window_fifo_witness :
    ((1 : ℚ), (2 : ℚ)) ∉
      (sobiRun (sobiInit 2 0 2 1) [((1 : ℚ), (2 : ℚ)), (3, 4), (5, 6)]).last_imbalances :=
  (rolling_window_fifo 2 0 2 1 [] ((1 : ℚ), (2 : ℚ)) [(3, 4), (5, 6)]
    rfl (by norm_num)).2.2

/-- C9 counterexample: with a window of two and theta zero, one update
with imbalances zero and one leaves the signal-state entry current at
zero although the instantaneous signal of that tick is one. -/
theorem sobi_current_counterexample :
    (sobiRun (sobiInit 2 0 2 1) [(0, 1)]).sig_current = 0
    ∧ sobiCalcSignal 0 0 1 = 1
    ∧ (sobiRun (sobiInit 2 0 2 1) [(0, 1)]).sig_current ≠ sobiCalcSignal 0 0 1 := by
  have hs : (sobiRun (sobiInit 2 0 2 1) [(0, 1)]).sig_current = 0 := by
    have hrun : sobiRun (sobiInit 2 0 2 1) [(0, 1)]
        = sobiStep (sobiInit 2 0 2 1) (0, 1) := rfl
    rw [hrun, sobiStep_sig_current,
      if_neg (by norm_num [sobiNewWindow, sobiInit])]
    rfl
  have hc : sobiCalcSignal 0 0 1 = 1 := by norm_num [sobiCalcSignal]
  refine ⟨hs, hc, ?_⟩
  rw [hs, hc]
  omega

/-- C9 amended: the signal-state entry current stays at zero on every
tick while the window is below capacity, and is set to the
instantaneous signal of the tick exactly on ticks where the window is
at full capacity. -/
theorem sobi_current_amended (w : Nat) (theta d : ℚ) (ps : Int) (hw : 1 ≤ w)
    (qs : List (ℚ × ℚ)) (p : ℚ × ℚ) :
    ((sobiRun (sobiInit w theta d ps) qs).last_imbalances.length < w →
      (sobiRun (sobiInit w theta d ps) qs).sig_current = 0)
    ∧ ((sobiRun (sobiInit w theta d ps) (qs ++ [p])).last_imbalances.length = w →
      (sobiRun (sobiInit w theta d ps) (qs ++ [p])).sig_current
        = sobiCalcSignal theta p.1 p.2) := by
  obtain ⟨h1, h2, h3, h4, h5, h6⟩ :=
    sobiRun_inv w theta ps qs (sobiInit w theta d ps) (sobiInit_inv w theta d ps hw)
  constructor
  · intro hlt
    exact (h5 hlt).2
  · intro heq
    have happ : sobiRun (sobiInit w theta d ps) (qs ++ [p])
        = sobiStep (sobiRun (sobiInit w theta d ps) qs) p := by
      simp [sobiRun, List.foldl_append]
    rw [happ] at heq ⊢
    have hcond : (sobiNewWindow (sobiRun (sobiInit w theta d ps) qs) p).length
        = (sobiRun (sobiInit w theta d ps) qs).window_size := by
      rw [← sobiStep_last, heq, h1]
    rw [sobiStep_sig_current, if_pos hcond, h2]

/-- C9 amended witness: with a window of one, the single update sets
the current entry to the instantaneous signal of that tick. -/
theorem sobi_current_amended_witness :
    (sobiRun (sobiInit 1 0 2 2) [((0 : ℚ), (1 : ℚ))]).sig_current
      = sobiCalcSignal 0 (0 : ℚ) (1 : ℚ) :=
  (sobi_current_amended 1 0 2 2 (by norm_num) [] (0, 1)).2
    (by rw [sobiRun_init_window]; rfl)

end Arthur
